import Mathlib

set_option maxHeartbeats 1000000

/-!
Verification of the zunlib asynchronous aggregation and polling subsystem
(`src/resolveAll.ts`, `src/wait.ts`, and the spec-described `checkAll`).

The embedding is a shallow model of the single-threaded event-loop semantics:
a producer settles at a discrete "microtask time" (a plain callable invoked via
`Promise.resolve().then(...)` settles one step after invocation; an
already-pending handle settles at its own time).  `Promise.all` rejects with the
first rejection in settle order, ties inside one microtask batch resolved by
subscription (key) order; `Promise.allSettled` settles when the last producer
settles.  Scheduler handles (`setPolling`, `setSuperInterval`) are modelled as
explicit state machines driven by event sequences, and the waiters
(`waitCond`, `waitValue`) by a per-instant settlement-event function.
-/

namespace Zunlib

variable {α ρ β γ V : Type}

/-- Settlement outcome of a single producer: mirrors `PromiseSettledResult`
(`{status:"fulfilled", value}` / `{status:"rejected", reason}`). -/
inductive Outcome (α ρ : Type) where
  | fulfilled (v : α)
  | rejected (r : ρ)
deriving DecidableEq

instance [Inhabited α] : Inhabited (Outcome α ρ) := ⟨Outcome.fulfilled default⟩

/-- `true` iff the outcome has status `"rejected"`. -/
def Outcome.isRejected : Outcome α ρ → Bool
  | Outcome.rejected _ => true
  | Outcome.fulfilled _ => false

/-- Fulfilled value of an outcome (junk default on the rejected branch, which
the theorems only use under a no-rejection hypothesis). -/
def Outcome.valueD [Inhabited α] : Outcome α ρ → α
  | Outcome.fulfilled v => v
  | Outcome.rejected _ => default

/-- One producer of `resolveAll` (`Input<T>` in `src/resolveAll.ts`): either a
plain callable (`getter`, invoked through `Promise.resolve().then(() => input())`,
so it settles `d + 1` microtask steps after invocation; `d = 0` is a synchronous
getter) or an already-pending promise handle settling at its own time `t`. -/
inductive Producer (α ρ : Type) where
  | getter (d : Nat) (o : Outcome α ρ)
  | handle (t : Nat) (o : Outcome α ρ)
deriving DecidableEq

/-- Microtask time at which the producer's promise (as built by `toPromise`)
settles. -/
def Producer.settleTime : Producer α ρ → Nat
  | Producer.getter d _ => d + 1
  | Producer.handle t _ => t

/-- The producer's settlement outcome. -/
def Producer.outcome : Producer α ρ → Outcome α ρ
  | Producer.getter _ o => o
  | Producer.handle _ o => o

/-- The three input shapes of `resolveAll` / `waitValue`: a single producer, an
ordered array, or a name-keyed record (insertion-ordered association list). -/
inductive Shaped (β : Type) where
  | one (v : β)
  | list (vs : List β)
  | keyed (vs : List (String × β))
deriving DecidableEq

/-- Stringified-index keys for array input, mirroring
`Object.fromEntries(inputs.map((input, i) => [i, input]))`. -/
def indexKeys : Nat → List γ → List (String × γ)
  | _, [] => []
  | i, g :: gs => (toString i, g) :: indexKeys (i + 1) gs

/-- Normalization to the canonical keyed form (`src/resolveAll.ts` lines
144-153 and the identical block in `waitValue`): a single input goes under the
sentinel key `"result"`, an array under stringified indices, a record stays. -/
def normalizeShape : Shaped γ → List (String × γ)
  | Shaped.one g => [("result", g)]
  | Shaped.list gs => indexKeys 0 gs
  | Shaped.keyed kgs => kgs

/-- `buildResult` / `buildSettledResults` / `getResult` of the source: rebuild
the original shape from the per-key values `vs` (listed in key order). -/
def buildResult [Inhabited β] (shape : Shaped γ) (vs : List β) : Shaped β :=
  match shape with
  | Shaped.one _ => Shaped.one (vs.headD default)
  | Shaped.list _ => Shaped.list vs
  | Shaped.keyed kgs => Shaped.keyed ((kgs.map Prod.fst).zip vs)

/-- `true` iff some normalized producer rejects (the `hasError` flag of the
`allSettled` branch). -/
def hasRejection (l : List (String × Producer α ρ)) : Bool :=
  l.any fun kp => kp.2.outcome.isRejected

/-- The rejection reported by `Promise.all`: the rejection with the least
settle time; among rejections that become available in the same microtask batch
the one whose `.then` subscription came first (key order) wins, because their
reaction jobs are queued in subscription order. -/
def firstRejection : List (String × Producer α ρ) → Option (Nat × ρ)
  | [] => none
  | kp :: rest =>
    match kp.2.outcome, firstRejection rest with
    | Outcome.fulfilled _, acc => acc
    | Outcome.rejected r, none => some (kp.2.settleTime, r)
    | Outcome.rejected r, some (t2, r2) =>
      if t2 < kp.2.settleTime then some (t2, r2) else some (kp.2.settleTime, r)

/-- Time at which the last producer settles: when `Promise.all` fulfills and
when `Promise.allSettled` settles. -/
def maxSettleTime (l : List (String × Producer α ρ)) : Nat :=
  l.foldr (fun kp m => max kp.2.settleTime m) 0

/-- Result of one `resolveAll` call. -/
inductive AggRes (α ρ : Type) where
  | ok (v : Shaped α)
  | okNull
  | err (r : ρ)
  | errSettled (s : Shaped (Outcome α ρ))
deriving DecidableEq

/-- A settled `resolveAll` promise: the settle time and the result
(`ok` fulfilled with shaped values, `okNull` the `nothrow` null sentinel,
`err` a fail-fast rejection with one bare reason, `errSettled` a settled-mode
rejection carrying the shaped outcome map). -/
structure AggOut (α ρ : Type) where
  time : Nat
  res : AggRes α ρ
deriving DecidableEq

/-- `resolveAll` (`src/resolveAll.ts` lines 138-220).  `settled = false` is the
`Promise.all` branch: first settling rejection wins, on success values are
reshaped; `settled = true` is the `Promise.allSettled` branch: waits for every
producer, rejects with the reshaped outcome map when any rejected.  `nothrow`
converts either failure into the `null` sentinel. -/
def resolveAll [Inhabited α] (inputs : Shaped (Producer α ρ))
    (settled nothrow : Bool) : AggOut α ρ :=
  if settled then
    if hasRejection (normalizeShape inputs) then
      if nothrow then ⟨maxSettleTime (normalizeShape inputs), AggRes.okNull⟩
      else
        ⟨maxSettleTime (normalizeShape inputs),
          AggRes.errSettled
            (buildResult inputs ((normalizeShape inputs).map fun kp => kp.2.outcome))⟩
    else
      ⟨maxSettleTime (normalizeShape inputs),
        AggRes.ok
          (buildResult inputs ((normalizeShape inputs).map fun kp => kp.2.outcome.valueD))⟩
  else
    match firstRejection (normalizeShape inputs) with
    | some tr => if nothrow then ⟨tr.1, AggRes.okNull⟩ else ⟨tr.1, AggRes.err tr.2⟩
    | none =>
      ⟨maxSettleTime (normalizeShape inputs),
        AggRes.ok
          (buildResult inputs ((normalizeShape inputs).map fun kp => kp.2.outcome.valueD))⟩

/-- Spec-side definition following claim C1's wording only (not the source):
"the first-in-key-order rejection among those available at the point all have
settled". -/
def keyOrderFirstRejection (l : List (String × Producer α ρ)) : Option ρ :=
  l.findSome? fun kp =>
    match kp.2.outcome with
    | Outcome.rejected r => some r
    | Outcome.fulfilled _ => none

/-- Result of one `checkAll` call. -/
inductive CheckRes (ρ : Type) where
  | okTrue
  | okFalse
  | errMsg (m : String)
  | errReason (r : ρ)
  | errSettled (s : Shaped (Outcome Bool ρ))
deriving DecidableEq

/-- Modelled from the spec: the message of the descriptive error `checkAll`
raises for a false condition; per §4.3 it "must include the key name". -/
def condErrMsg (k : String) : String := "checkAll failed: " ++ k ++ " is false"

/-- Modelled from the spec: the "first false-valued key/index" of a shaped
boolean result (§4.3); the singular shape uses the normalization sentinel key. -/
def firstFalseS : Shaped Bool → Option String
  | Shaped.one b => if b then none else some "result"
  | Shaped.list bs => (indexKeys 0 bs).findSome? fun kb => if kb.2 then none else some kb.1
  | Shaped.keyed kbs => kbs.findSome? fun kb => if kb.2 then none else some kb.1

/-- Modelled from the spec: the repository exports a `checkAll` utility (README
and `checkAll.test.ts` are present) whose implementation file is not under
`src/`.  Per §4.3 it specializes the Aggregator to boolean producers: after
aggregation succeeds, any `false` value fails — in fail-fast non-settled mode
with a descriptive error naming the first false key, in settled mode with the
settled outcome map (a `false` is still a fulfilled outcome) — and `nothrow`
converts every failure into a plain `false` return. -/
def checkAll (inputs : Shaped (Producer Bool ρ)) (settled nothrow : Bool) : CheckRes ρ :=
  match (resolveAll inputs settled false).res with
  | AggRes.err r => if nothrow then CheckRes.okFalse else CheckRes.errReason r
  | AggRes.errSettled s => if nothrow then CheckRes.okFalse else CheckRes.errSettled s
  | AggRes.okNull => CheckRes.okFalse
  | AggRes.ok vals =>
    match firstFalseS vals with
    | none => CheckRes.okTrue
    | some k =>
      if nothrow then CheckRes.okFalse
      else if settled then
        CheckRes.errSettled
          (buildResult inputs ((normalizeShape inputs).map fun kp => kp.2.outcome))
      else CheckRes.errMsg (condErrMsg k)

/-- Cancellation cause passed to `setPolling`'s `onabort`. -/
inductive PReason where
  | manual
  | signal
  | timeout
deriving DecidableEq

/-- Events a live `setPolling` handle can receive: an interval tick, a `stop()`
call, an `abort()` call, the signal's abort event, the timeout firing. -/
inductive PEvent where
  | tick
  | stopCall
  | abortCall
  | signalFire
  | timeoutFire
deriving DecidableEq

/-- State of a `setPolling` handle: the `stopped` flag, the `onabort`
invocations so far (in order), and the number of callback invocations. -/
structure PState where
  stopped : Bool
  fired : List PReason
  ticks : Nat
deriving DecidableEq

/-- One step of the `setPolling` handle (`src/wait.ts` lines 126-152): every
path is guarded by the `stopped` flag (a tick cannot arrive once the interval
is cleared, so a tick on a stopped handle is a no-op); `stop()` stops silently;
`abort()`, the signal listener and the timeout stop and fire `onabort` with
their own cause. -/
def pollStep (s : PState) (e : PEvent) : PState :=
  if s.stopped then s
  else
    match e with
    | PEvent.tick => { s with ticks := s.ticks + 1 }
    | PEvent.stopCall => { s with stopped := true }
    | PEvent.abortCall => { s with stopped := true, fired := s.fired ++ [PReason.manual] }
    | PEvent.signalFire => { s with stopped := true, fired := s.fired ++ [PReason.signal] }
    | PEvent.timeoutFire => { s with stopped := true, fired := s.fired ++ [PReason.timeout] }

/-- A freshly created `setPolling` handle (signal not already aborted). -/
def pollInit : PState := ⟨false, [], 0⟩

/-- Run a `setPolling` handle over a sequence of events. -/
def pollRun (es : List PEvent) : PState := es.foldl pollStep pollInit

/-- Classifies an event as a stopping action: `none` for a tick,
`some none` for plain `stop()` (no `onabort`), `some (some r)` for a
cancellation with cause `r`. -/
def stopperReason : PEvent → Option (Option PReason)
  | PEvent.tick => none
  | PEvent.stopCall => some none
  | PEvent.abortCall => some (some PReason.manual)
  | PEvent.signalFire => some (some PReason.signal)
  | PEvent.timeoutFire => some (some PReason.timeout)

/-- The first stopping action of an event sequence, if any. -/
def firstStopper (es : List PEvent) : Option (Option PReason) :=
  es.findSome? stopperReason

/-- Events a `setSuperInterval` handle can receive.  `signalFire` is the
signal's abort event — an `AbortSignal` that is already aborted at creation
never dispatches it again. -/
inductive SIEvent where
  | tick
  | stopCall
  | signalFire
  | timeoutFire
deriving DecidableEq

/-- State of a `setSuperInterval` handle: whether the timing source (worker or
fallback interval) is still running, whether the signal is aborted, and the
number of callback invocations. -/
structure SIState where
  sourceActive : Bool
  aborted : Bool
  cbCount : Nat
deriving DecidableEq

/-- One step of `setSuperInterval` (`src/wait.ts` lines 40-75): a tick from a
live source invokes the callback only when the signal is not aborted (the
source itself keeps running); `stop()` tears the source down; the signal's
abort event calls `stop`; the timeout calls `stop`. -/
def siStep (s : SIState) (e : SIEvent) : SIState :=
  match e with
  | SIEvent.tick =>
    if s.sourceActive && !s.aborted then { s with cbCount := s.cbCount + 1 } else s
  | SIEvent.stopCall => { s with sourceActive := false }
  | SIEvent.signalFire => { s with aborted := true, sourceActive := false }
  | SIEvent.timeoutFire => { s with sourceActive := false }

/-- A freshly created `setSuperInterval` handle: the timing source is created
unconditionally (there is no early return for an already-aborted signal), and
`immediate` fires the callback once only when the signal is not aborted. -/
def siInit (abortedAtCreation immediate : Bool) : SIState :=
  { sourceActive := true
    aborted := abortedAtCreation
    cbCount := if immediate && !abortedAtCreation then 1 else 0 }

/-- Run a `setSuperInterval` handle over a sequence of events. -/
def siRun (s : SIState) (es : List SIEvent) : SIState := es.foldl siStep s

/-- Options of `waitCond` / `waitValue` plus the signal's behaviour:
`timeout = 0` means no timeout (the source checks `if (timeout)`, and `0` is
falsy in JS); `signalAt` is the instant the external signal aborts, if ever;
`abortedAtStart` is the `signal?.aborted` early-return check at call time. -/
structure WaitEnv where
  interval : Nat
  timeout : Nat
  signalAt : Option Nat
  abortedAtStart : Bool
  nothrow : Bool
deriving DecidableEq

/-- The first cancellation to fire (time and bare string reason), derived from
the timeout and the signal. -/
def waitCancel (env : WaitEnv) : Option (Nat × String) :=
  match (if env.timeout = 0 then none else some env.timeout), env.signalAt with
  | none, none => none
  | some tt, none => some (tt, "timeout")
  | none, some s => some (s, "signal")
  | some tt, some s => if s < tt then some (s, "signal") else some (tt, "timeout")

/-- Settlement of a waiter promise: `res v` resolution with a value on a
successful check, `resCancel` the `nothrow` resolution on cancellation
(`resolve()` / `resolve(null)`), `rejS r` rejection with the bare string
reason `"timeout"` or `"signal"`. -/
inductive PWEvent (V : Type) where
  | res (v : V)
  | resCancel
  | rejS (r : String)
deriving DecidableEq

/-- `true` iff the `n`-th check (initial check at time `0`, tick `n` at
`n * interval`) runs at time `t`, succeeds, is the first successful check, and
happens no later than the cancellation (a tick at the cancellation instant runs
first: the interval was registered before the timeout, and the check's
microtasks drain before the next macrotask). -/
def pwCheckOk (cycles : Nat → Option V) (interval : Nat) (cLim : Option Nat)
    (t n : Nat) : Bool :=
  n * interval == t && (cycles n).isSome &&
    ((List.range n).all fun m => (cycles m).isNone) &&
    (match cLim with | some c => decide (t ≤ c) | none => true)

/-- `true` iff the waiter resolves successfully at instant `t`. -/
def pwHit (cycles : Nat → Option V) (interval : Nat) (cLim : Option Nat)
    (t : Nat) : Bool :=
  (List.range (t + 1)).any fun n => pwCheckOk cycles interval cLim t n

/-- The index of the check that resolves the waiter at instant `t`, if any. -/
def pwFind (cycles : Nat → Option V) (interval : Nat) (cLim : Option Nat)
    (t : Nat) : Option Nat :=
  (List.range (t + 1)).find? fun n => pwCheckOk cycles interval cLim t n

/-- The settlement event (if any) of a waiter promise at instant `t`.  Mirrors
`waitCond` / `waitValue` (`src/wait.ts` lines 220-253 and 355-389): an
already-aborted signal settles at once without scheduling; otherwise checks run
at `0, interval, 2·interval, …` until the first success resolves the promise,
and the first cancellation settles it (`onabort`: reject with the bare reason,
or resolve when `nothrow`) when no check has succeeded up to that instant. -/
def pwEvent (cycles : Nat → Option V) (env : WaitEnv) (t : Nat) :
    Option (PWEvent V) :=
  if env.abortedAtStart then
    if t = 0 then some (if env.nothrow then PWEvent.resCancel else PWEvent.rejS "signal")
    else none
  else
    match pwFind cycles env.interval ((waitCancel env).map Prod.fst) t with
    | some n => (cycles n).map PWEvent.res
    | none =>
      match waitCancel env with
      | some (c, r) =>
        if t = c then
          if (List.range (c + 1)).any
              (fun u => pwHit cycles env.interval (some c) u) then none
          else some (if env.nothrow then PWEvent.resCancel else PWEvent.rejS r)
        else none
      | none => none

/-- `true` iff the `n`-th check actually executes: never when the signal was
aborted at call time; otherwise exactly when the waiter has not settled
strictly before the check's instant (settling stops the polling handle). -/
def checkRuns (cycles : Nat → Option V) (env : WaitEnv) (n : Nat) : Bool :=
  !env.abortedAtStart &&
    !((List.range (n * env.interval)).any fun u => (pwEvent cycles env u).isSome)

/-- The per-check results of `waitCond`: check `n` succeeds iff `checkAll`
returned `true`, i.e. iff `cond n` (producer errors are already swallowed into
`false` by the source's `checkAll`). -/
def condCycles (cond : Nat → Bool) : Nat → Option Unit :=
  fun n => if cond n then some () else none

/-- Settlement event of a `waitCond` call whose `n`-th aggregated check yields
`cond n`. -/
def waitCondEvent (cond : Nat → Bool) (env : WaitEnv) (t : Nat) :
    Option (PWEvent Unit) :=
  pwEvent (condCycles cond) env t

/-- `true` iff the waiter arms its repeating trigger: `waitCond`/`waitValue`
invoke `setPolling` unconditionally after the already-aborted early return
(`src/wait.ts` line 247 / 383), and `setPolling` calls `setInterval` unless the
signal is already aborted (line 121/127). -/
def pollingArmed (env : WaitEnv) : Bool := !env.abortedAtStart

/-- One getter of `waitValue`: yields a value (`none` models `null`/
`undefined`) or throws/rejects. -/
inductive GetterP (α ρ : Type) where
  | yields (v : Option α)
  | throws (r : ρ)
deriving DecidableEq

/-- `true` iff the getter throws or rejects. -/
def GetterP.isThrows : GetterP α ρ → Bool
  | GetterP.yields _ => false
  | GetterP.throws _ => true

/-- The value the getter yields (junk `none` on the throwing branch). -/
def GetterP.yieldVal : GetterP α ρ → Option α
  | GetterP.yields v => v
  | GetterP.throws _ => none

/-- `tryGetAll` of `waitValue` (`src/wait.ts` lines 341-353): walk the keys in
order, await each getter, bail out with `null` on the first nullish value, and
the surrounding `try`/`catch` turns any throw or rejection into `null`. -/
def tryGetAll : List (String × GetterP α ρ) → Option (List (String × α))
  | [] => some []
  | (_, GetterP.throws _) :: _ => none
  | (_, GetterP.yields none) :: _ => none
  | (k, GetterP.yields (some v)) :: rest =>
    (tryGetAll rest).map fun m => (k, v) :: m

/-- A `waitValue` getter as a `resolveAll` producer: a plain callable yielding
the (possibly nullish) value or throwing. -/
def GetterP.toProducer : GetterP α ρ → Producer (Option α) ρ
  | GetterP.yields v => Producer.getter 0 (Outcome.fulfilled v)
  | GetterP.throws r => Producer.getter 0 (Outcome.rejected r)

/-- Spec-side definition following claim C5's wording: require every produced
value to be non-null and non-undefined, yielding the keyed value map. -/
def allSomeVals : List (String × Option α) → Option (List (String × α))
  | [] => some []
  | kv :: rest =>
    match kv.2, allSomeVals rest with
    | some v, some m => some ((kv.1, v) :: m)
    | _, _ => none

/-- Spec-side definition following claim C5's wording only: one polling cycle
as "running the Aggregator (resolveAll) over the same producer set in
`{nothrow:true}` mode and then requiring every produced value to be non-null
and non-undefined". -/
def specCycle (gs : List (String × GetterP α ρ)) : Option (List (String × α)) :=
  match (resolveAll (Shaped.keyed (gs.map fun kg => (kg.1, kg.2.toProducer)))
      false true).res with
  | AggRes.ok (Shaped.keyed kvs) => allSomeVals kvs
  | _ => none

/-- The per-check results of a `waitValue` call on a fixed shaped getter set:
every cycle runs `tryGetAll` and reshapes via `getResult`. -/
def waitValueCycles [Inhabited α] (gs : Shaped (GetterP α ρ)) :
    Nat → Option (Shaped α) :=
  fun _ => (tryGetAll (normalizeShape gs)).map fun m => buildResult gs (m.map Prod.snd)

/-- Settlement event of a `waitValue` call. -/
def waitValueEvent [Inhabited α] (gs : Shaped (GetterP α ρ)) (env : WaitEnv)
    (t : Nat) : Option (PWEvent (Shaped α)) :=
  pwEvent (waitValueCycles gs) env t

/-! Helper lemmas. -/

theorem indexKeys_map_snd (f : γ → β) :
    ∀ (i : Nat) (gs : List γ), (indexKeys i gs).map (fun kp => f kp.2) = gs.map f := by
  intro i gs
  induction gs generalizing i with
  | nil => rfl
  | cons g gs ih => simp [indexKeys, ih]

theorem maxSettleTime_cons (kp : String × Producer α ρ) (l : List (String × Producer α ρ)) :
    maxSettleTime (kp :: l) = max kp.2.settleTime (maxSettleTime l) := rfl

theorem maxSettleTime_mem (l : List (String × Producer α ρ)) :
    ∀ kp ∈ l, kp.2.settleTime ≤ maxSettleTime l := by
  induction l with
  | nil => simp
  | cons kp rest ih =>
    intro q hq
    rcases List.mem_cons.mp hq with h | h
    · subst h; rw [maxSettleTime_cons]; exact le_max_left _ _
    · exact le_trans (ih q h) (by rw [maxSettleTime_cons]; exact le_max_right _ _)

theorem firstRejection_cons_fulfilled (kp : String × Producer α ρ)
    (rest : List (String × Producer α ρ)) {v : α}
    (ho : kp.2.outcome = Outcome.fulfilled v) :
    firstRejection (kp :: rest) = firstRejection rest := by
  rw [firstRejection, ho]

theorem firstRejection_cons_rejected_none (kp : String × Producer α ρ)
    (rest : List (String × Producer α ρ)) {r : ρ}
    (ho : kp.2.outcome = Outcome.rejected r) (hfr : firstRejection rest = none) :
    firstRejection (kp :: rest) = some (kp.2.settleTime, r) := by
  rw [firstRejection, ho, hfr]

theorem firstRejection_cons_rejected_some (kp : String × Producer α ρ)
    (rest : List (String × Producer α ρ)) {r : ρ} {t2 : Nat} {r2 : ρ}
    (ho : kp.2.outcome = Outcome.rejected r)
    (hfr : firstRejection rest = some (t2, r2)) :
    firstRejection (kp :: rest) =
      if t2 < kp.2.settleTime then some (t2, r2) else some (kp.2.settleTime, r) := by
  rw [firstRejection, ho, hfr]

theorem firstRejection_none_no_rejection :
    ∀ (l : List (String × Producer α ρ)), firstRejection l = none →
      ∀ q ∈ l, q.2.outcome.isRejected = false := by
  intro l
  induction l with
  | nil => intro _ q hq; simp at hq
  | cons kp rest ih =>
    intro h q hq
    cases ho : kp.2.outcome with
    | fulfilled v =>
      rw [firstRejection_cons_fulfilled kp rest ho] at h
      rcases List.mem_cons.mp hq with rfl | hmem
      · simp [Outcome.isRejected, ho]
      · exact ih h q hmem
    | rejected r =>
      cases hfr : firstRejection rest with
      | none =>
        rw [firstRejection_cons_rejected_none kp rest ho hfr] at h
        simp at h
      | some tr =>
        rcases tr with ⟨t2, r2⟩
        rw [firstRejection_cons_rejected_some kp rest ho hfr] at h
        split at h <;> simp at h

theorem firstRejection_spec :
    ∀ (l : List (String × Producer α ρ)) (t : Nat) (r : ρ),
      firstRejection l = some (t, r) →
      ∃ pre kp post, l = pre ++ kp :: post ∧
        kp.2.outcome = Outcome.rejected r ∧ kp.2.settleTime = t ∧
        (∀ q ∈ pre, q.2.outcome.isRejected = true → t < q.2.settleTime) ∧
        (∀ q ∈ l, q.2.outcome.isRejected = true → t ≤ q.2.settleTime) := by
  intro l
  induction l with
  | nil => intro t r h; simp [firstRejection] at h
  | cons kp rest ih =>
    intro t r h
    cases ho : kp.2.outcome with
    | fulfilled v =>
      rw [firstRejection_cons_fulfilled kp rest ho] at h
      obtain ⟨pre, kq, post, hl, hout, htime, hpre, hall⟩ := ih t r h
      refine ⟨kp :: pre, kq, post, by rw [hl]; rfl, hout, htime, ?_, ?_⟩
      · intro q hq hrej
        rcases List.mem_cons.mp hq with rfl | hmem
        · rw [ho] at hrej; simp [Outcome.isRejected] at hrej
        · exact hpre q hmem hrej
      · intro q hq hrej
        rcases List.mem_cons.mp hq with rfl | hmem
        · rw [ho] at hrej; simp [Outcome.isRejected] at hrej
        · exact hall q hmem hrej
    | rejected r0 =>
      cases hfr : firstRejection rest with
      | none =>
        rw [firstRejection_cons_rejected_none kp rest ho hfr] at h
        rcases (show kp.2.settleTime = t ∧ r0 = r by simpa using h) with ⟨ht, rfl⟩
        refine ⟨[], kp, rest, rfl, ho, ht, by simp, ?_⟩
        intro q hq hrej
        rcases List.mem_cons.mp hq with rfl | hmem
        · rw [← ht]
        · exact absurd hrej (by simp [firstRejection_none_no_rejection rest hfr q hmem])
      | some tr =>
        rcases tr with ⟨t2, r2⟩
        by_cases hlt : t2 < kp.2.settleTime
        · rw [firstRejection_cons_rejected_some kp rest ho hfr, if_pos hlt] at h
          rcases (show t2 = t ∧ r2 = r by simpa using h) with ⟨rfl, rfl⟩
          obtain ⟨pre, kq, post, hl, hout, htime, hpre, hall⟩ := ih t2 r2 hfr
          refine ⟨kp :: pre, kq, post, by rw [hl]; rfl, hout, htime, ?_, ?_⟩
          · intro q hq hrej
            rcases List.mem_cons.mp hq with rfl | hmem
            · exact hlt
            · exact hpre q hmem hrej
          · intro q hq hrej
            rcases List.mem_cons.mp hq with rfl | hmem
            · exact le_of_lt hlt
            · exact hall q hmem hrej
        · rw [firstRejection_cons_rejected_some kp rest ho hfr, if_neg hlt] at h
          rcases (show kp.2.settleTime = t ∧ r0 = r by simpa using h) with ⟨ht, rfl⟩
          obtain ⟨pre, kq, post, hl, hout, htime, hpre, hall⟩ := ih t2 r2 hfr
          refine ⟨[], kp, rest, rfl, ho, ht, by simp, ?_⟩
          intro q hq hrej
          rcases List.mem_cons.mp hq with rfl | hmem
          · rw [← ht]
          · calc t = kp.2.settleTime := ht.symm
              _ ≤ t2 := Nat.le_of_not_lt hlt
              _ ≤ _ := hall q hmem hrej

theorem hasRejection_of_firstRejection_some {l : List (String × Producer α ρ)}
    {t : Nat} {r : ρ} (h : firstRejection l = some (t, r)) : hasRejection l = true := by
  obtain ⟨pre, kp, post, hl, hout, _, _, _⟩ := firstRejection_spec l t r h
  simp only [hasRejection, List.any_eq_true]
  exact ⟨kp, by rw [hl]; simp, by simp [Outcome.isRejected, hout]⟩

theorem firstRejection_isSome_of_hasRejection (l : List (String × Producer α ρ))
    (h : hasRejection l = true) : ∃ tr, firstRejection l = some tr := by
  cases hfr : firstRejection l with
  | some tr => exact ⟨tr, rfl⟩
  | none =>
    exfalso
    simp only [hasRejection, List.any_eq_true] at h
    rcases h with ⟨q, hq, hrej⟩
    have := firstRejection_none_no_rejection l hfr q hq
    rw [this] at hrej
    exact absurd hrej (by simp)

theorem firstRejection_none_iff (l : List (String × Producer α ρ)) :
    firstRejection l = none ↔ hasRejection l = false := by
  constructor
  · intro h
    simp only [hasRejection, List.any_eq_false]
    intro q hq
    simpa using firstRejection_none_no_rejection l h q hq
  · intro h
    cases hfr : firstRejection l with
    | none => rfl
    | some tr =>
      rcases tr with ⟨t, r⟩
      rw [hasRejection_of_firstRejection_some hfr] at h
      exact absurd h (by simp)

/-! Claim theorems. -/

/-- C1 counterexample: with producers `a` rejecting with `"ra"` at settle time
5 and `b`, `c` rejecting with `"rb"`, `"rc"` in the same microtask batch at
time 0, fail-fast `resolveAll` rejects at time 0 with `"rb"` — the first
rejection in settle order — whereas the claim predicts the first-in-key-order
rejection among those available once all producers have settled (`"ra"`), after
waiting for the full batch (time 5). -/
theorem failfast_rejection_cex :
    resolveAll (Shaped.keyed
        [("a", (Producer.handle 5 (Outcome.rejected "ra") : Producer Nat String)),
         ("b", Producer.handle 0 (Outcome.rejected "rb")),
         ("c", Producer.handle 0 (Outcome.rejected "rc"))]) false false =
      ⟨0, AggRes.err "rb"⟩ ∧
    keyOrderFirstRejection (normalizeShape (Shaped.keyed
        [("a", (Producer.handle 5 (Outcome.rejected "ra") : Producer Nat String)),
         ("b", Producer.handle 0 (Outcome.rejected "rb")),
         ("c", Producer.handle 0 (Outcome.rejected "rc"))])) = some "ra" ∧
    ("rb" : String) ≠ "ra" ∧
    maxSettleTime (normalizeShape (Shaped.keyed
        [("a", (Producer.handle 5 (Outcome.rejected "ra") : Producer Nat String)),
         ("b", Producer.handle 0 (Outcome.rejected "rb")),
         ("c", Producer.handle 0 (Outcome.rejected "rc"))])) = 5 ∧
    (0 : Nat) ≠ 5 := by
  refine ⟨by decide, by decide, by decide, by decide, by decide⟩

/-- C1 amended: in fail-fast mode, for every producer set with at least one
rejecting producer, `resolveAll` rejects with exactly one bare reason: the
reason of the earliest-settling rejection, and it rejects at that rejection's
settle time without waiting for the rest of the batch; among producers whose
rejections become available in the same microtask batch, the earliest in
normalized key order wins (every rejecting producer placed earlier in key order
settles strictly later). -/
theorem failfast_first_settled_rejection {α ρ : Type} [Inhabited α]
    (inputs : Shaped (Producer α ρ))
    (h : hasRejection (normalizeShape inputs) = true) :
    ∃ t r pre kp post,
      resolveAll inputs false false = ⟨t, AggRes.err r⟩ ∧
      normalizeShape inputs = pre ++ kp :: post ∧
      kp.2.outcome = Outcome.rejected r ∧ kp.2.settleTime = t ∧
      (∀ q ∈ pre, q.2.outcome.isRejected = true → t < q.2.settleTime) ∧
      (∀ q ∈ normalizeShape inputs, q.2.outcome.isRejected = true →
        t ≤ q.2.settleTime) := by
  obtain ⟨⟨t, r⟩, hfr⟩ := firstRejection_isSome_of_hasRejection _ h
  obtain ⟨pre, kp, post, hl, hout, htime, hpre, hall⟩ := firstRejection_spec _ t r hfr
  exact ⟨t, r, pre, kp, post, by simp [resolveAll, hfr], hl, hout, htime, hpre, hall⟩

/-- C1 witness: the amended theorem applied to a concrete producer set. -/
theorem failfast_first_settled_rejection_witness :
    ∃ t r pre kp post,
      resolveAll (Shaped.keyed
          [("a", (Producer.handle 2 (Outcome.rejected "x") : Producer Nat String)),
           ("b", Producer.getter 0 (Outcome.fulfilled 1))]) false false =
        ⟨t, AggRes.err r⟩ ∧
      normalizeShape (Shaped.keyed
          [("a", (Producer.handle 2 (Outcome.rejected "x") : Producer Nat String)),
           ("b", Producer.getter 0 (Outcome.fulfilled 1))]) = pre ++ kp :: post ∧
      kp.2.outcome = Outcome.rejected r ∧ kp.2.settleTime = t ∧
      (∀ q ∈ pre, q.2.outcome.isRejected = true → t < q.2.settleTime) ∧
      (∀ q ∈ normalizeShape (Shaped.keyed
          [("a", (Producer.handle 2 (Outcome.rejected "x") : Producer Nat String)),
           ("b", Producer.getter 0 (Outcome.fulfilled 1))]),
        q.2.outcome.isRejected = true → t ≤ q.2.settleTime) :=
  failfast_first_settled_rejection _ (by decide)

/-- C2: in settled mode (without `nothrow`), for every producer set with at
least one rejecting producer, `resolveAll` never rejects with a bare reason,
waits for every producer to settle (its settle time dominates each producer's),
and rejects with the entire shape-matching map / ordered sequence / single
outcome of per-producer settlement outcomes (`fulfilled value` / `rejected
reason`, reasons preserved verbatim). -/
theorem settled_mode_rejects_with_outcome_map {α ρ : Type} [Inhabited α]
    (inputs : Shaped (Producer α ρ))
    (h : hasRejection (normalizeShape inputs) = true) :
    (∀ r, (resolveAll inputs true false).res ≠ AggRes.err r) ∧
    (∀ kp ∈ normalizeShape inputs,
      kp.2.settleTime ≤ (resolveAll inputs true false).time) ∧
    (∀ kps, inputs = Shaped.keyed kps →
      (resolveAll inputs true false).res =
        AggRes.errSettled (Shaped.keyed (kps.map fun kp => (kp.1, kp.2.outcome)))) ∧
    (∀ ps, inputs = Shaped.list ps →
      (resolveAll inputs true false).res =
        AggRes.errSettled (Shaped.list (ps.map Producer.outcome))) ∧
    (∀ p, inputs = Shaped.one p →
      (resolveAll inputs true false).res =
        AggRes.errSettled (Shaped.one p.outcome)) := by
  have hres : resolveAll inputs true false =
      ⟨maxSettleTime (normalizeShape inputs),
        AggRes.errSettled
          (buildResult inputs ((normalizeShape inputs).map fun kp => kp.2.outcome))⟩ := by
    simp [resolveAll, h]
  refine ⟨?_, ?_, ?_, ?_, ?_⟩
  · intro r; rw [hres]; simp
  · intro kp hkp; rw [hres]; exact maxSettleTime_mem _ kp hkp
  · intro kps hk; subst hk
    rw [hres]
    simp only [normalizeShape, buildResult]
    rw [List.zip_map']
  · intro ps hk; subst hk
    rw [hres]
    simp only [normalizeShape, buildResult]
    rw [indexKeys_map_snd Producer.outcome 0 ps]
  · intro p hk; subst hk
    rw [hres]
    simp [normalizeShape, buildResult]

/-- C2 witness: the theorem applied to a concrete keyed producer set. -/
theorem settled_mode_rejects_with_outcome_map_witness :
    (resolveAll (Shaped.keyed
        [("a", (Producer.handle 0 (Outcome.fulfilled (1 : Nat)) : Producer Nat String)),
         ("b", Producer.getter 0 (Outcome.rejected "boom"))]) true false).res =
      AggRes.errSettled (Shaped.keyed
        [("a", Outcome.fulfilled 1), ("b", Outcome.rejected "boom")]) := by
  have h := settled_mode_rejects_with_outcome_map
    (Shaped.keyed
      [("a", (Producer.handle 0 (Outcome.fulfilled (1 : Nat)) : Producer Nat String)),
       ("b", Producer.getter 0 (Outcome.rejected "boom"))]) (by decide)
  simpa using h.2.2.1 _ rfl

/-- C3: with `nothrow: true`, `resolveAll` never rejects (neither with a bare
reason nor with a settled map) for any producer behaviour, in both modes; it
resolves to the `null` sentinel when any producer rejects and to exactly the
normally shaped result (the non-`nothrow` output) when every producer
fulfills. -/
theorem nothrow_never_rejects {α ρ : Type} [Inhabited α]
    (inputs : Shaped (Producer α ρ)) (settled : Bool) :
    (∀ r, (resolveAll inputs settled true).res ≠ AggRes.err r) ∧
    (∀ s, (resolveAll inputs settled true).res ≠ AggRes.errSettled s) ∧
    (hasRejection (normalizeShape inputs) = true →
      (resolveAll inputs settled true).res = AggRes.okNull) ∧
    (hasRejection (normalizeShape inputs) = false →
      resolveAll inputs settled true = resolveAll inputs settled false) := by
  cases settled with
  | true =>
    cases hr : hasRejection (normalizeShape inputs) with
    | true => refine ⟨?_, ?_, ?_, ?_⟩ <;> simp [resolveAll, hr]
    | false => refine ⟨?_, ?_, ?_, ?_⟩ <;> simp [resolveAll, hr]
  | false =>
    cases hfr : firstRejection (normalizeShape inputs) with
    | some tr =>
      rcases tr with ⟨t, r⟩
      have hr : hasRejection (normalizeShape inputs) = true :=
        hasRejection_of_firstRejection_some hfr
      refine ⟨?_, ?_, ?_, ?_⟩ <;> simp [resolveAll, hfr, hr]
    | none =>
      have hr : hasRejection (normalizeShape inputs) = false :=
        (firstRejection_none_iff _).mp hfr
      refine ⟨?_, ?_, ?_, ?_⟩ <;> simp [resolveAll, hfr, hr]

/-- C3 witness: the theorem applied to a single throwing producer (fail-fast
mode) and, via its fourth conjunct, to an all-fulfilling set. -/
theorem nothrow_never_rejects_witness :
    (resolveAll (Shaped.one
        (Producer.getter 0 (Outcome.rejected "boom") : Producer Nat String))
      false true).res = AggRes.okNull ∧
    resolveAll (Shaped.list
        [(Producer.getter 0 (Outcome.fulfilled (5 : Nat)) : Producer Nat String)])
        true true =
      resolveAll (Shaped.list
        [(Producer.getter 0 (Outcome.fulfilled (5 : Nat)) : Producer Nat String)])
        true false :=
  ⟨(nothrow_never_rejects _ false).2.2.1 (by decide),
   (nothrow_never_rejects _ true).2.2.2 (by decide)⟩

/-- C4: in fail-fast non-settled mode, when every producer fulfills,
`resolveAll` resolves (at the time the last producer settles) with a result of
the same shape as the input: the bare value for singular input, a list of the
same length in the same order for ordered input, and exactly the input's keys
for keyed input, each slot being that producer's fulfilled value. -/
theorem failfast_fulfilled_shape_roundtrip {α ρ : Type} [Inhabited α]
    (inputs : Shaped (Producer α ρ))
    (h : hasRejection (normalizeShape inputs) = false) :
    (∀ p, inputs = Shaped.one p →
      resolveAll inputs false false =
        ⟨maxSettleTime (normalizeShape inputs),
          AggRes.ok (Shaped.one p.outcome.valueD)⟩) ∧
    (∀ ps, inputs = Shaped.list ps →
      ∃ vs, resolveAll inputs false false =
          ⟨maxSettleTime (normalizeShape inputs), AggRes.ok (Shaped.list vs)⟩ ∧
        vs = ps.map (fun p => p.outcome.valueD) ∧ vs.length = ps.length) ∧
    (∀ kps, inputs = Shaped.keyed kps →
      ∃ kvs, resolveAll inputs false false =
          ⟨maxSettleTime (normalizeShape inputs), AggRes.ok (Shaped.keyed kvs)⟩ ∧
        kvs = kps.map (fun kp => (kp.1, kp.2.outcome.valueD)) ∧
        kvs.map Prod.fst = kps.map Prod.fst) := by
  have hfr : firstRejection (normalizeShape inputs) = none :=
    (firstRejection_none_iff _).mpr h
  have hres : resolveAll inputs false false =
      ⟨maxSettleTime (normalizeShape inputs),
        AggRes.ok
          (buildResult inputs
            ((normalizeShape inputs).map fun kp => kp.2.outcome.valueD))⟩ := by
    simp [resolveAll, hfr]
  refine ⟨?_, ?_, ?_⟩
  · intro p hp; subst hp
    rw [hres]
    simp [normalizeShape, buildResult]
  · intro ps hp; subst hp
    refine ⟨ps.map fun p => p.outcome.valueD, ?_, rfl, by simp⟩
    rw [hres]
    simp only [normalizeShape, buildResult]
    rw [indexKeys_map_snd (fun p => p.outcome.valueD) 0 ps]
  · intro kps hp; subst hp
    refine ⟨kps.map fun kp => (kp.1, kp.2.outcome.valueD), ?_, rfl, by simp⟩
    rw [hres]
    simp only [normalizeShape, buildResult]
    rw [List.zip_map']

/-- C4 witness: the theorem applied to a concrete ordered producer set. -/
theorem failfast_fulfilled_shape_roundtrip_witness :
    ∃ vs, resolveAll (Shaped.list
          [(Producer.getter 0 (Outcome.fulfilled (7 : Nat)) : Producer Nat String),
           Producer.handle 3 (Outcome.fulfilled 8)]) false false =
        ⟨maxSettleTime (normalizeShape (Shaped.list
            [(Producer.getter 0 (Outcome.fulfilled (7 : Nat)) : Producer Nat String),
             Producer.handle 3 (Outcome.fulfilled 8)])),
          AggRes.ok (Shaped.list vs)⟩ ∧
      vs = [(Producer.getter 0 (Outcome.fulfilled (7 : Nat)) : Producer Nat String),
            Producer.handle 3 (Outcome.fulfilled 8)].map (fun p => p.outcome.valueD) ∧
      vs.length = [(Producer.getter 0 (Outcome.fulfilled (7 : Nat)) : Producer Nat String),
            Producer.handle 3 (Outcome.fulfilled 8)].length :=
  (failfast_fulfilled_shape_roundtrip _ (by decide)).2.1 _ rfl

/-- C9: in fail-fast non-settled mode, for every keyed condition set in which
some producer yields `false` while no producer errors, `checkAll` rejects with
a descriptive error whose message contains the name of the first false-valued
key (the message decomposes as `pre ++ k ++ post`). -/
theorem checkAll_false_key_in_message {ρ : Type}
    (kps : List (String × Producer Bool ρ)) (k : String)
    (hnoerr : hasRejection kps = false)
    (hfalse : firstFalseS
        (Shaped.keyed (kps.map fun kp => (kp.1, kp.2.outcome.valueD))) = some k) :
    checkAll (Shaped.keyed kps) false false = CheckRes.errMsg (condErrMsg k) ∧
    ∃ pre post, condErrMsg k = pre ++ k ++ post := by
  have hfr : firstRejection kps = none := (firstRejection_none_iff kps).mpr hnoerr
  have hres : (resolveAll (Shaped.keyed kps) false false).res =
      AggRes.ok (Shaped.keyed (kps.map fun kp => (kp.1, kp.2.outcome.valueD))) := by
    have hr : resolveAll (Shaped.keyed kps) false false =
        ⟨maxSettleTime (normalizeShape (Shaped.keyed kps)),
          AggRes.ok (buildResult (Shaped.keyed kps)
            ((normalizeShape (Shaped.keyed kps)).map fun kp => kp.2.outcome.valueD))⟩ := by
      simp [resolveAll, normalizeShape, hfr]
    rw [hr]
    simp only [normalizeShape, buildResult]
    rw [List.zip_map']
  refine ⟨?_, "checkAll failed: ", " is false", rfl⟩
  simp only [checkAll, hres, hfalse]
  rfl

/-- C9 witness: the theorem applied to `{a: () => true, b: () => false}`,
matching the repository's test (message contains the literal `"b"`). -/
theorem checkAll_false_key_in_message_witness :
    checkAll (Shaped.keyed
        [("a", (Producer.getter 0 (Outcome.fulfilled true) : Producer Bool String)),
         ("b", Producer.getter 0 (Outcome.fulfilled false))]) false false =
      CheckRes.errMsg (condErrMsg "b") ∧
    ∃ pre post, condErrMsg "b" = pre ++ "b" ++ post :=
  checkAll_false_key_in_message _ "b" (by decide) (by decide)

/-- `setPolling`: a stopped handle absorbs every event. -/
theorem pollStep_stopped (s : PState) (e : PEvent) (h : s.stopped = true) :
    pollStep s e = s := by
  simp [pollStep, h]

theorem pollFoldl_stopped (s : PState) (h : s.stopped = true) :
    ∀ es : List PEvent, es.foldl pollStep s = s := by
  intro es
  induction es with
  | nil => rfl
  | cons e es ih =>
    rw [List.foldl_cons, pollStep_stopped s e h]
    exact ih

theorem pollFoldl_fired (es : List PEvent) :
    ∀ s : PState, s.stopped = false →
      (es.foldl pollStep s).fired =
        s.fired ++ (match firstStopper es with
          | some (some r) => [r]
          | _ => ([] : List PReason)) := by
  induction es with
  | nil => intro s _; simp [firstStopper]
  | cons e es ih =>
    intro s h
    cases e with
    | tick =>
      rw [List.foldl_cons]
      have hstep : pollStep s PEvent.tick = { s with ticks := s.ticks + 1 } := by
        simp [pollStep, h]
      rw [hstep, ih { s with ticks := s.ticks + 1 } h]
      simp [firstStopper, List.findSome?_cons, stopperReason]
    | stopCall =>
      rw [List.foldl_cons]
      have hstep : pollStep s PEvent.stopCall = { s with stopped := true } := by
        simp [pollStep, h]
      rw [hstep, pollFoldl_stopped _ rfl es]
      simp [firstStopper, List.findSome?_cons, stopperReason]
    | abortCall =>
      rw [List.foldl_cons]
      have hstep : pollStep s PEvent.abortCall =
          { s with stopped := true, fired := s.fired ++ [PReason.manual] } := by
        simp [pollStep, h]
      rw [hstep, pollFoldl_stopped _ rfl es]
      simp [firstStopper, List.findSome?_cons, stopperReason]
    | signalFire =>
      rw [List.foldl_cons]
      have hstep : pollStep s PEvent.signalFire =
          { s with stopped := true, fired := s.fired ++ [PReason.signal] } := by
        simp [pollStep, h]
      rw [hstep, pollFoldl_stopped _ rfl es]
      simp [firstStopper, List.findSome?_cons, stopperReason]
    | timeoutFire =>
      rw [List.foldl_cons]
      have hstep : pollStep s PEvent.timeoutFire =
          { s with stopped := true, fired := s.fired ++ [PReason.timeout] } := by
        simp [pollStep, h]
      rw [hstep, pollFoldl_stopped _ rfl es]
      simp [firstStopper, List.findSome?_cons, stopperReason]

/-- C7 counterexample: when `stop()`, `abort()` and the signal's abort all
occur in the same tick with `stop()` first, `onabort` fires zero times, not
exactly once. -/
theorem onabort_exactly_once_cex :
    (pollRun [PEvent.stopCall, PEvent.abortCall, PEvent.signalFire]).fired = [] ∧
    ¬((pollRun [PEvent.stopCall, PEvent.abortCall, PEvent.signalFire]).fired.length = 1) := by
  exact ⟨rfl, by decide⟩

/-- C7 amended: `onabort` fires at most once per `setPolling` handle: exactly
once, with the cause of the first stopping action, when `abort()`, the signal
or the timeout is first; zero times when plain `stop()` is first; and once
stopped, further stop/abort calls and further timer triggers are no-ops. -/
theorem onabort_at_most_once_first_cause :
    (∀ es : List PEvent, (pollRun es).fired =
      (match firstStopper es with
       | some (some r) => [r]
       | _ => ([] : List PReason))) ∧
    (∀ (s : PState) (e : PEvent), s.stopped = true → pollStep s e = s) ∧
    (∀ es : List PEvent, (pollRun es).fired.length ≤ 1) := by
  have hmain : ∀ es : List PEvent, (pollRun es).fired =
      (match firstStopper es with
       | some (some r) => [r]
       | _ => ([] : List PReason)) := by
    intro es
    have h := pollFoldl_fired es pollInit rfl
    simpa [pollRun, pollInit] using h
  refine ⟨hmain, pollStep_stopped, ?_⟩
  intro es
  rw [hmain es]
  cases hfs : firstStopper es with
  | none => simp
  | some o =>
    cases o with
    | none => simp
    | some r => simp

/-- C7 witness: the amended theorem applied to a concrete same-tick event
sequence (abort first) and to a concrete stopped state. -/
theorem onabort_at_most_once_first_cause_witness :
    (pollRun [PEvent.tick, PEvent.abortCall, PEvent.stopCall, PEvent.signalFire]).fired =
      [PReason.manual] ∧
    pollStep ⟨true, [], 3⟩ PEvent.tick = ⟨true, [], 3⟩ := by
  constructor
  · have h := onabort_at_most_once_first_cause.1
      [PEvent.tick, PEvent.abortCall, PEvent.stopCall, PEvent.signalFire]
    exact h
  · exact onabort_at_most_once_first_cause.2.1 _ PEvent.tick rfl

/-- `setSuperInterval`: while the signal is aborted the callback count never
changes, and abortedness is permanent. -/
theorem siRun_aborted :
    ∀ (es : List SIEvent) (s : SIState), s.aborted = true →
      (siRun s es).cbCount = s.cbCount ∧ (siRun s es).aborted = true := by
  intro es
  induction es with
  | nil => intro s h; exact ⟨rfl, h⟩
  | cons e es ih =>
    intro s h
    cases e with
    | tick =>
      have hstep : siStep s SIEvent.tick = s := by simp [siStep, h]
      have hrw : siRun s (SIEvent.tick :: es) = siRun s es := by
        show siRun (siStep s SIEvent.tick) es = siRun s es
        rw [hstep]
      rw [hrw]
      exact ih s h
    | stopCall =>
      have hrw : siRun s (SIEvent.stopCall :: es) =
          siRun { s with sourceActive := false } es := rfl
      rw [hrw]
      exact ih { s with sourceActive := false } h
    | signalFire =>
      have hrw : siRun s (SIEvent.signalFire :: es) =
          siRun { s with aborted := true, sourceActive := false } es := rfl
      rw [hrw]
      exact ih { s with aborted := true, sourceActive := false } rfl
    | timeoutFire =>
      have hrw : siRun s (SIEvent.timeoutFire :: es) =
          siRun { s with sourceActive := false } es := rfl
      rw [hrw]
      exact ih { s with sourceActive := false } h

/-- `setSuperInterval`: a tick-only event sequence leaves an aborted handle's
state unchanged entirely. -/
theorem siRun_ticks_only :
    ∀ (es : List SIEvent) (s : SIState), (∀ e ∈ es, e = SIEvent.tick) →
      s.aborted = true → siRun s es = s := by
  intro es
  induction es with
  | nil => intro s _ _; rfl
  | cons e es ih =>
    intro s hall ha
    have he : e = SIEvent.tick := hall e (List.mem_cons_self e es)
    subst he
    have hstep : siStep s SIEvent.tick = s := by simp [siStep, ha]
    show siRun (siStep s SIEvent.tick) es = s
    rw [hstep]
    exact ih s (fun e hmem => hall e (List.mem_cons_of_mem _ hmem)) ha

/-- C10 counterexample: a handle created with an already-aborted signal and a
configured timeout has its timing source stopped by the timeout elapsing,
although `stop()` is never called — so "keeps ticking until stop() is
explicitly called" does not hold for every such handle. -/
theorem superInterval_timeout_stops_cex :
    (siRun (siInit true false) [SIEvent.timeoutFire]).sourceActive = false ∧
    SIEvent.stopCall ∉ [SIEvent.timeoutFire] := by
  exact ⟨rfl, by decide⟩

/-- C10 amended: once the signal is aborted the callback is never invoked on
any further tick; a handle created with an already-aborted signal is not
created stopped — its timing source is created and, absent `stop()` and absent
a configured timeout (an already-aborted signal never fires its abort event),
every tick leaves the source active with the callback never invoked; ticking
ceases only via `stop()` or a configured timeout. -/
theorem superInterval_aborted_signal_keeps_ticking :
    (∀ (es : List SIEvent) (s : SIState), s.aborted = true →
      (siRun s es).cbCount = s.cbCount) ∧
    (∀ (immediate : Bool) (es : List SIEvent), (∀ e ∈ es, e = SIEvent.tick) →
      siRun (siInit true immediate) es = siInit true immediate ∧
      (siInit true immediate).sourceActive = true ∧
      (siInit true immediate).cbCount = 0) := by
  refine ⟨fun es s h => (siRun_aborted es s h).1, ?_⟩
  intro immediate es hall
  refine ⟨siRun_ticks_only es (siInit true immediate) hall rfl, rfl, ?_⟩
  simp [siInit]

/-- C10 witness: the amended theorem applied to a concrete aborted state and a
concrete tick-only run. -/
theorem superInterval_aborted_signal_keeps_ticking_witness :
    (siRun ⟨true, true, 2⟩ [SIEvent.tick, SIEvent.tick]).cbCount = 2 ∧
    siRun (siInit true true) [SIEvent.tick, SIEvent.tick, SIEvent.tick] =
      siInit true true := by
  constructor
  · exact superInterval_aborted_signal_keeps_ticking.1 _ ⟨true, true, 2⟩ rfl
  · exact (superInterval_aborted_signal_keeps_ticking.2 true _ (by decide)).1

/-! Waiter lemmas. -/

theorem pwCheckOk_none (cycles : Nat → Option V) (interval : Nat)
    (cLim : Option Nat) (hnone : ∀ n, cycles n = none) (t n : Nat) :
    pwCheckOk cycles interval cLim t n = false := by
  simp [pwCheckOk, hnone]

theorem pwEvent_no_success (cycles : Nat → Option V) (env : WaitEnv)
    (hnone : ∀ n, cycles n = none) (hna : env.abortedAtStart = false) (t : Nat) :
    pwEvent cycles env t =
      match waitCancel env with
      | some (c, r) =>
        if t = c then some (if env.nothrow then PWEvent.resCancel else PWEvent.rejS r)
        else none
      | none => none := by
  have hfind : ∀ cl, pwFind cycles env.interval cl t = none := by
    intro cl
    apply List.find?_eq_none.mpr
    intro n _
    simp [pwCheckOk_none cycles env.interval cl hnone]
  simp only [pwEvent, hna, Bool.false_eq_true, if_false, hfind]
  cases hc : waitCancel env with
  | none => rfl
  | some cr =>
    rcases cr with ⟨c, r⟩
    have hany : ((List.range (c + 1)).any fun u =>
        pwHit cycles env.interval (some c) u) = false := by
      apply List.any_eq_false.mpr
      intro u _
      simp [pwHit, pwCheckOk_none cycles env.interval (some c) hnone]
    simp [hany]

theorem pwCheckOk_zero (cycles : Nat → Option V) (interval : Nat)
    (cLim : Option Nat) (h0 : (cycles 0).isSome = true) :
    pwCheckOk cycles interval cLim 0 0 = true := by
  cases cLim with
  | none => simp [pwCheckOk, h0]
  | some c => simp [pwCheckOk, h0]

theorem pwFind_zero (cycles : Nat → Option V) (interval : Nat)
    (cLim : Option Nat) (h0 : (cycles 0).isSome = true) :
    pwFind cycles interval cLim 0 = some 0 := by
  unfold pwFind
  rw [show List.range (0 + 1) = [0] from rfl]
  simp [List.find?_cons, pwCheckOk_zero cycles interval cLim h0]

theorem pwEvent_zero (cycles : Nat → Option V) (env : WaitEnv) {v : V}
    (h0 : cycles 0 = some v) (hna : env.abortedAtStart = false) :
    pwEvent cycles env 0 = some (PWEvent.res v) := by
  have hf := pwFind_zero cycles env.interval ((waitCancel env).map Prod.fst)
    (by simp [h0])
  simp only [pwEvent, hna, Bool.false_eq_true, if_false, hf]
  simp [h0]

theorem pwCheckOk_later_false (cycles : Nat → Option V) (interval : Nat)
    (cLim : Option Nat) {v : V} (h0 : cycles 0 = some v)
    {t : Nat} (ht : 0 < t) (n : Nat) :
    pwCheckOk cycles interval cLim t n = false := by
  cases n with
  | zero =>
    have hbeq : (0 * interval == t) = false := by
      rw [Nat.zero_mul]
      exact beq_eq_false_iff_ne.mpr (Nat.ne_of_lt ht)
    simp only [pwCheckOk, hbeq, Bool.false_and]
  | succ m =>
    have hmem : (0 : Nat) ∈ List.range (m + 1) := List.mem_range.mpr (Nat.succ_pos m)
    have hall : ((List.range (m + 1)).all fun k => (cycles k).isNone) = false := by
      rw [Bool.eq_false_iff]
      intro hcon
      have h00 := List.all_eq_true.mp hcon 0 hmem
      rw [h0] at h00
      simp at h00
    simp [pwCheckOk, hall]

theorem pwFind_later_none (cycles : Nat → Option V) (interval : Nat)
    (cLim : Option Nat) {v : V} (h0 : cycles 0 = some v)
    {t : Nat} (ht : 0 < t) :
    pwFind cycles interval cLim t = none := by
  apply List.find?_eq_none.mpr
  intro n _
  simp [pwCheckOk_later_false cycles interval cLim h0 ht n]

theorem pwHit_zero (cycles : Nat → Option V) (interval : Nat) (c : Nat) {v : V}
    (h0 : cycles 0 = some v) :
    pwHit cycles interval (some c) 0 = true := by
  unfold pwHit
  apply List.any_eq_true.mpr
  exact ⟨0, by simp, pwCheckOk_zero cycles interval (some c) (by simp [h0])⟩

theorem pwEvent_later_none (cycles : Nat → Option V) (env : WaitEnv) {v : V}
    (h0 : cycles 0 = some v) (hna : env.abortedAtStart = false)
    {t : Nat} (ht : 0 < t) :
    pwEvent cycles env t = none := by
  have hf := pwFind_later_none cycles env.interval ((waitCancel env).map Prod.fst)
    h0 ht
  simp only [pwEvent, hna, Bool.false_eq_true, if_false, hf]
  cases hc : waitCancel env with
  | none => rfl
  | some cr =>
    rcases cr with ⟨c, r⟩
    have hany : ((List.range (c + 1)).any fun u =>
        pwHit cycles env.interval (some c) u) = true := by
      apply List.any_eq_true.mpr
      exact ⟨0, by simp, pwHit_zero cycles env.interval c h0⟩
    by_cases htc : t = c <;> simp [htc, hany]

/-- C6: for every condition set that never becomes satisfied, `waitCond` with
a timeout and without `nothrow` settles exactly once, at the timeout instant,
rejecting with the literal bare string value `"timeout"` (not a structured
error object); under the same cancellation with `nothrow: true` it resolves
instead of rejecting, and never rejects at any instant. -/
theorem waitCond_timeout_rejects_bare_timeout
    (cond : Nat → Bool) (i T : Nat)
    (hnever : ∀ n, cond n = false) (hT : 0 < T) :
    waitCondEvent cond ⟨i, T, none, false, false⟩ T = some (PWEvent.rejS "timeout") ∧
    (∀ t, t ≠ T → waitCondEvent cond ⟨i, T, none, false, false⟩ t = none) ∧
    waitCondEvent cond ⟨i, T, none, false, true⟩ T = some PWEvent.resCancel ∧
    (∀ t r, waitCondEvent cond ⟨i, T, none, false, true⟩ t ≠ some (PWEvent.rejS r)) := by
  have hnone : ∀ n, condCycles cond n = none := by
    intro n; simp [condCycles, hnever n]
  have hcancel : ∀ b : Bool, waitCancel ⟨i, T, none, false, b⟩ = some (T, "timeout") := by
    intro b
    simp [waitCancel, Nat.pos_iff_ne_zero.mp hT]
  have hev : ∀ (b : Bool) (t : Nat),
      pwEvent (condCycles cond) ⟨i, T, none, false, b⟩ t =
        if t = T then some (if b then PWEvent.resCancel else PWEvent.rejS "timeout")
        else none := by
    intro b t
    rw [pwEvent_no_success (condCycles cond) ⟨i, T, none, false, b⟩ hnone rfl t,
      hcancel b]
  refine ⟨?_, ?_, ?_, ?_⟩
  · rw [waitCondEvent, hev false T]
    simp
  · intro t ht
    rw [waitCondEvent, hev false t]
    simp [ht]
  · rw [waitCondEvent, hev true T]
    simp
  · intro t r
    rw [waitCondEvent, hev true t]
    by_cases ht : t = T <;> simp [ht]

/-- C6 witness: the theorem applied to `waitCond(() => false,
{timeout: 50, interval: 10})`. -/
theorem waitCond_timeout_rejects_bare_timeout_witness :
    waitCondEvent (fun _ => false) ⟨10, 50, none, false, false⟩ 50 =
      some (PWEvent.rejS "timeout") ∧
    (∀ t, t ≠ 50 → waitCondEvent (fun _ => false) ⟨10, 50, none, false, false⟩ t = none) ∧
    waitCondEvent (fun _ => false) ⟨10, 50, none, false, true⟩ 50 =
      some PWEvent.resCancel ∧
    (∀ t r, waitCondEvent (fun _ => false) ⟨10, 50, none, false, true⟩ t ≠
      some (PWEvent.rejS r)) :=
  waitCond_timeout_rejects_bare_timeout (fun _ => false) 10 50 (fun _ => rfl)
    (by decide)

/-- C8 counterexample: with a condition that is already true, the `waitCond`
model resolves at instant 0 (the initial check) — yet the repeating trigger IS
armed: `waitCond` invokes `setPolling` unconditionally and `setPolling` calls
`setInterval` before the initial check's microtask resolves, contradicting "no
repeating trigger is armed when the initial immediate check succeeds". -/
theorem waitCond_true_arms_polling_cex :
    waitCondEvent (fun _ => true) ⟨100, 0, none, false, false⟩ 0 =
      some (PWEvent.res ()) ∧
    pollingArmed ⟨100, 0, none, false, false⟩ = true := by
  exact ⟨rfl, rfl⟩

/-- C8 amended: `waitCond` with a condition producer that already returns true
resolves immediately — at instant 0, on the initial check, settling at no other
instant — and no repeated check ever executes (every check with index `n ≥ 1`
is skipped because the handle is stopped); however the repeating trigger is
armed (`pollingArmed` is true) and only then stopped, before its first tick. -/
theorem waitCond_true_resolves_immediately
    (cond : Nat → Bool) (i T : Nat) (sAt : Option Nat)
    (h0 : cond 0 = true) (hi : 0 < i) :
    waitCondEvent cond ⟨i, T, sAt, false, false⟩ 0 = some (PWEvent.res ()) ∧
    (∀ t, 0 < t → waitCondEvent cond ⟨i, T, sAt, false, false⟩ t = none) ∧
    (∀ n, 0 < n → checkRuns (condCycles cond) ⟨i, T, sAt, false, false⟩ n = false) ∧
    pollingArmed ⟨i, T, sAt, false, false⟩ = true := by
  have hc0 : condCycles cond 0 = some () := by simp [condCycles, h0]
  refine ⟨pwEvent_zero _ _ hc0 rfl, ?_, ?_, rfl⟩
  · intro t ht
    exact pwEvent_later_none _ _ hc0 rfl ht
  · intro n hn
    have h0mem : (0 : Nat) ∈ List.range (n * i) :=
      List.mem_range.mpr (Nat.mul_pos hn hi)
    have hev0 : (pwEvent (condCycles cond) ⟨i, T, sAt, false, false⟩ 0).isSome = true := by
      rw [pwEvent_zero _ _ hc0 rfl]
      rfl
    have hany : ((List.range (n * i)).any fun u =>
        (pwEvent (condCycles cond) ⟨i, T, sAt, false, false⟩ u).isSome) = true := by
      apply List.any_eq_true.mpr
      exact ⟨0, h0mem, hev0⟩
    simp [checkRuns, hany]

/-- C8 witness: the amended theorem applied to `waitCond(() => true)`. -/
theorem waitCond_true_resolves_immediately_witness :
    waitCondEvent (fun _ => true) ⟨10, 0, none, false, false⟩ 0 =
      some (PWEvent.res ()) ∧
    (∀ t, 0 < t → waitCondEvent (fun _ => true) ⟨10, 0, none, false, false⟩ t = none) ∧
    (∀ n, 0 < n →
      checkRuns (condCycles fun _ => true) ⟨10, 0, none, false, false⟩ n = false) ∧
    pollingArmed ⟨10, 0, none, false, false⟩ = true :=
  waitCond_true_resolves_immediately (fun _ => true) 10 0 none rfl (by decide)

theorem tryGetAll_none_of_throws :
    ∀ (gs : List (String × GetterP α ρ)),
      (gs.any fun kg => kg.2.isThrows) = true → tryGetAll gs = none := by
  intro gs
  induction gs with
  | nil => intro h; simp at h
  | cons kg rest ih =>
    intro h
    rcases kg with ⟨k, g⟩
    cases g with
    | throws r => rfl
    | yields v =>
      cases v with
      | none => rfl
      | some x =>
        have hrest : (rest.any fun kg => kg.2.isThrows) = true := by
          simpa [List.any_cons, GetterP.isThrows] using h
        show (tryGetAll rest).map _ = none
        rw [ih hrest]
        rfl

theorem hasRejection_toProducer (gs : List (String × GetterP α ρ)) :
    hasRejection (gs.map fun kg => (kg.1, kg.2.toProducer)) =
      (gs.any fun kg => kg.2.isThrows) := by
  induction gs with
  | nil => rfl
  | cons kg rest ih =>
    have hhead : (kg.2.toProducer).outcome.isRejected = kg.2.isThrows := by
      cases hkg : kg.2 <;> rfl
    simp only [hasRejection, List.map_cons, List.any_cons] at ih ⊢
    rw [hhead, ih]

theorem allSomeVals_cons_some (k : String) (v : α) (l : List (String × Option α)) :
    allSomeVals ((k, some v) :: l) = (allSomeVals l).map fun m => (k, v) :: m := by
  cases hA : allSomeVals l <;> simp [allSomeVals, hA]

theorem tryGetAll_no_throws :
    ∀ (gs : List (String × GetterP α ρ)),
      (gs.any fun kg => kg.2.isThrows) = false →
      tryGetAll gs = allSomeVals (gs.map fun kg => (kg.1, kg.2.yieldVal)) := by
  intro gs
  induction gs with
  | nil => intro _; rfl
  | cons kg rest ih =>
    intro h
    rcases kg with ⟨k, g⟩
    have hrest : (rest.any fun kg => kg.2.isThrows) = false := by
      rw [List.any_cons] at h
      exact (Bool.or_eq_false_iff.mp h).2
    cases g with
    | throws r =>
      rw [List.any_cons] at h
      have := (Bool.or_eq_false_iff.mp h).1
      simp [GetterP.isThrows] at this
    | yields v =>
      cases v with
      | none => rfl
      | some x =>
        show (tryGetAll rest).map (fun m => (k, x) :: m) =
          allSomeVals ((k, some x) :: rest.map fun kg => (kg.1, kg.2.yieldVal))
        rw [ih hrest, allSomeVals_cons_some]

theorem tryGetAll_eq_specCycle (gs : List (String × GetterP α ρ)) :
    tryGetAll gs = specCycle gs := by
  cases hthrow : (gs.any fun kg => kg.2.isThrows) with
  | true =>
    rw [tryGetAll_none_of_throws gs hthrow]
    have hrej : hasRejection (gs.map fun kg => (kg.1, kg.2.toProducer)) = true := by
      rw [hasRejection_toProducer]
      exact hthrow
    obtain ⟨⟨t, r⟩, hfr⟩ := firstRejection_isSome_of_hasRejection _ hrej
    have hres : (resolveAll (Shaped.keyed (gs.map fun kg => (kg.1, kg.2.toProducer)))
        false true).res = AggRes.okNull := by
      simp [resolveAll, normalizeShape, hfr]
    simp only [specCycle, hres]
  | false =>
    have hrej : hasRejection (gs.map fun kg => (kg.1, kg.2.toProducer)) = false := by
      rw [hasRejection_toProducer]
      exact hthrow
    have hfr := (firstRejection_none_iff _).mpr hrej
    have hres : (resolveAll (Shaped.keyed (gs.map fun kg => (kg.1, kg.2.toProducer)))
        false true).res =
        AggRes.ok (Shaped.keyed (gs.map fun kg => (kg.1, kg.2.yieldVal))) := by
      have h1 : resolveAll (Shaped.keyed (gs.map fun kg => (kg.1, kg.2.toProducer)))
          false true =
          ⟨maxSettleTime (gs.map fun kg => (kg.1, kg.2.toProducer)),
            AggRes.ok (buildResult
              (Shaped.keyed (gs.map fun kg => (kg.1, kg.2.toProducer)))
              ((gs.map fun kg => (kg.1, kg.2.toProducer)).map
                fun kp => kp.2.outcome.valueD))⟩ := by
        simp [resolveAll, normalizeShape, hfr]
      rw [h1]
      simp only [buildResult]
      rw [List.zip_map', List.map_map]
      apply congrArg
      apply congrArg
      apply List.map_congr_left
      intro kg _
      rcases kg with ⟨k, g⟩
      cases g <;> rfl
    simp only [specCycle, hres]
    rw [tryGetAll_no_throws gs hthrow]

/-- C5: every polling cycle of `waitValue` (`tryGetAll`) computes the same
outcome as running `resolveAll` on the same producer set in `{nothrow: true}`
mode and then requiring every produced value to be non-null and non-undefined
(`specCycle`); in particular `waitValue(() => 0)` resolves with `0` at instant
0 — immediately, settling at no other instant — since `0` is a valid ready
value (`some 0`), not treated as absent. -/
theorem waitValue_cycle_refines_resolveAll :
    (∀ (α2 ρ2 : Type) (gs : List (String × GetterP α2 ρ2)),
      tryGetAll gs = specCycle gs) ∧
    waitValueEvent (Shaped.one (GetterP.yields (some (0 : Nat)) : GetterP Nat String))
        ⟨100, 0, none, false, false⟩ 0 = some (PWEvent.res (Shaped.one 0)) ∧
    (∀ t, 0 < t →
      waitValueEvent (Shaped.one (GetterP.yields (some (0 : Nat)) : GetterP Nat String))
        ⟨100, 0, none, false, false⟩ t = none) := by
  refine ⟨fun α2 ρ2 gs => tryGetAll_eq_specCycle gs, rfl, ?_⟩
  intro t ht
  exact pwEvent_later_none
    (waitValueCycles (Shaped.one (GetterP.yields (some (0 : Nat)) : GetterP Nat String)))
    ⟨100, 0, none, false, false⟩ (v := Shaped.one 0) rfl rfl ht

/-- C5 witness: the refinement theorem applied to a concrete getter set and a
concrete later instant. -/
theorem waitValue_cycle_refines_resolveAll_witness :
    tryGetAll [("g", (GetterP.yields (some (3 : Nat)) : GetterP Nat String))] =
      specCycle [("g", (GetterP.yields (some (3 : Nat)) : GetterP Nat String))] ∧
    waitValueEvent (Shaped.one (GetterP.yields (some (0 : Nat)) : GetterP Nat String))
        ⟨100, 0, none, false, false⟩ 5 = none :=
  ⟨waitValue_cycle_refines_resolveAll.1 Nat String _,
    waitValue_cycle_refines_resolveAll.2.2 5 (by decide)⟩

end Zunlib
